import Mathlib

/-!
# Verification of the bugbot broker/runner core

This file is a shallow embedding, in Lean 4, of the bugbot broker server
(`src/unnamed/part_000`, the `Server` class) and the worker loop
(`src/modules/runner/src/runner.ts`, the `Runner` class), together with
proofs about the optimistic-concurrency patch protocol, the patch-field
authorization, the query-filter language and the worker's
poll/claim/execute/report loop.

JavaScript dynamic values are embedded as the inductive type `Value`
(strings, integers, arrays, objects); absent (`undefined`) fields are
`Option.none`.  Stateful handler methods become explicit state-passing
functions from the broker's task list to an updated task list plus an
HTTP outcome.
-/

namespace Bugbot

/-- A JSON-like dynamic value, the shallow embedding of the JavaScript
values the broker stores and serves.  `undefined` is represented by
`Option.none` at use sites, never by a `Value` constructor. -/
inductive Value where
  | str : String → Value
  | num : Int → Value
  | arr : List Value → Value
  | obj : List (String × Value) → Value
deriving Repr

/-- Minimal JSON string escaping (quote and backslash), enough for the
identifier-like strings the broker serializes. -/
def jsonEscape (s : String) : String :=
  String.mk (s.toList.foldr
    (fun c acc => if c = '"' ∨ c = '\\' then '\\' :: c :: acc else c :: acc) [])

def jsonQuote (s : String) : String :=
  "\"" ++ jsonEscape s ++ "\""

mutual

/-- Embedding of `JSON.stringify` on `Value` (object keys in insertion
order, as in V8). -/
def Value.stringify : Value → String
  | .str s => jsonQuote s
  | .num n => toString n
  | .arr vs => "[" ++ Value.stringifyList vs ++ "]"
  | .obj fs => "\x7b" ++ Value.stringifyFields fs ++ "\x7d"

def Value.stringifyList : List Value → String
  | [] => ""
  | [v] => v.stringify
  | v :: vs => v.stringify ++ "," ++ Value.stringifyList vs

def Value.stringifyFields : List (String × Value) → String
  | [] => ""
  | [(k, v)] => jsonQuote k ++ ":" ++ v.stringify
  | (k, v) :: fs => jsonQuote k ++ ":" ++ v.stringify ++ "," ++ Value.stringifyFields fs

end

/-- Embedding of the external `etag` npm package used by the broker.
Modelled from the spec: the spec only requires that the etag be "a
deterministic function of the job's externally visible serialized form"
with distinct serialized forms yielding distinct etags, so we embed it as
an injective tagging of the body string. -/
def create_etag (body : String) : String :=
  "\"" ++ body ++ "\""

/-- Splitting a character list on a separator character, JS
`String.prototype.split` style: splitting the empty string yields `[""]`
and a trailing separator yields a trailing empty piece. -/
def splitCharAux (sep : Char) : List Char → List (List Char)
  | [] => [[]]
  | c :: cs =>
    match splitCharAux sep cs with
    | [] => [[]]
    | r :: rs => if c = sep then [] :: r :: rs else (c :: r) :: rs

/-- Embedding of JS `s.split(sep)` for a one-character separator (the
broker only splits on `','` and `'.'`). -/
def jsSplit (s : String) (sep : Char) : List String :=
  (splitCharAux sep s.data).map String.mk

/-- Embedding of JS `s.endsWith('!')` for a one-character suffix. -/
def endsWithChar (s : String) (c : Char) : Bool :=
  s.data.getLast? == some c

/-- Embedding of JS `s.slice(0, -1)`. -/
def dropLastChar (s : String) : String :=
  String.mk s.data.dropLast

/-- `value?.[walk]`: one step of optional-chained property access.
Property access on non-objects (and on `undefined`) yields `undefined`;
built-in properties of primitives (e.g. `String.length`), which the
broker's queries never touch, are not modelled. -/
def jsGet : Option Value → String → Option Value
  | some (.obj fields), key => (fields.find? (fun f => f.1 == key)).map (fun f => f.2)
  | _, _ => none

/-- JavaScript loose equality `v == value` between a query alternative
(always a string) and a resolved field value.  String/number comparison
follows the `ToNumber` coercion on decimal integer literals; comparison
with arrays/objects (never produced by the broker's queries) is not
modelled further. -/
def jsLooseEq (s : String) : Value → Bool
  | .str t => s == t
  | .num n => s.toInt? == some n
  | .arr _ => false
  | .obj _ => false

/-- The comma-separated alternatives of one query value, with empty
strings dropped (`.split(',').filter(Boolean)`). -/
def filterQueryValues (val : String) : List String :=
  (jsSplit val ',').filter (fun v => !v.isEmpty)

/-- "walk the object tree to the right value": resolve a dotted path,
coercing a missing intermediate or absent final field to the literal
string `"undefined"`. -/
def filterResolve (names : List String) (cand : Value) : Value :=
  (names.foldl jsGet (some cand)).getD (.str "undefined")

/-- The per-candidate predicate of one query entry: parse the optional
trailing `!` (negation), split the key on `.` into a walk path, resolve
it, and test loose equality against any alternative. -/
def filterPred (entry : String × String) (cand : Value) : Bool :=
  let negate := endsWithChar entry.1 '!'
  let key := if negate then dropLastChar entry.1 else entry.1
  let names := jsSplit key '.'
  let values := filterQueryValues entry.2
  let matched := values.any (fun v => jsLooseEq v (filterResolve names cand))
  if negate then !matched else matched

/-- One pass of `Server.filter` for a single query entry. -/
def Server.filterStep (cands : List Value) (entry : String × String) : List Value :=
  cands.filter (filterPred entry)

/-- Embedding of `Server.filter` (broker server): AND-composition of the
per-key passes, in query insertion order, over a copy of the input list. -/
def Server.filter (beginning_set : List Value) (query : List (String × String)) :
    List Value :=
  query.foldl Server.filterStep beginning_set

/-- A claim record, `{runner, time_begun}`, as built by the runner when
claiming a job (`runner.ts`, `poll`). -/
structure Current where
  runner : String
  time_begun : Int
deriving Repr, DecidableEq

/-- One execution outcome, as assembled by the runner's `patchResult`
(`runner.ts`).  `error` and `bisect_range` are the optional fields of the
shared `Result` interface. -/
structure Result where
  runner : String
  status : String
  time_begun : Int
  time_ended : Int
  error : Option String := none
  bisect_range : Option (String × String) := none
deriving Repr, DecidableEq

def Current.encode (c : Current) : Value :=
  .obj [("runner", .str c.runner), ("time_begun", .num c.time_begun)]

def Result.encode (r : Result) : Value :=
  .obj ([("runner", .str r.runner), ("status", .str r.status),
      ("time_begun", .num r.time_begun), ("time_ended", .num r.time_ended)]
    ++ (match r.error with
        | some e => [("error", .str e)]
        | none => [])
    ++ (match r.bisect_range with
        | some (g, b) => [("bisect_range", .arr [.str g, .str b])]
        | none => []))

/-- The broker-side job record.  The dynamic (JavaScript) task object is
embedded with `Value`-typed payload fields; `etag` is the broker's stored
concurrency token (set by `getJob`) and `log` the append-only log text,
both internal bookkeeping outside the public subset. -/
structure Task where
  id : String
  type : String
  bisect_range : Value
  gist : String
  platform : Option Value := none
  current : Option Value := none
  last : Option Value := none
  history : List Value := []
  bot_client_data : Option Value := none
  etag : Option String := none
  log : String := ""
deriving Repr

def optField (k : String) : Option Value → List (String × Value)
  | some v => [(k, v)]
  | none => []

/-- Modelled from the spec: `Task.publicSubset` (the broker's `task.ts`
is not under `src/`).  §4.4: the public subset "is simply the full record
minus any internal-only bookkeeping", so every job field is serialized
and the stored `etag` and the log text are omitted; absent optional
fields are omitted as in `JSON.stringify`. -/
def Task.publicSubset (t : Task) : Value :=
  .obj ([("id", .str t.id), ("type", .str t.type),
      ("bisect_range", t.bisect_range), ("gist", .str t.gist)]
    ++ optField "platform" t.platform
    ++ optField "current" t.current
    ++ optField "last" t.last
    ++ [("history", .arr t.history)]
    ++ optField "bot_client_data" t.bot_client_data)

/-- Embedding of the broker server's `getTaskBody`: serialize the public
subset and compute its etag. -/
def getTaskBody (task : Task) : String × String :=
  let body := task.publicSubset.stringify
  (body, create_etag body)

/-- Modelled from the spec: `Task.canSet` (the broker's `task.ts` is not
under `src/`).  §4.3: only whitelisted fields are settable through a
generic patch (the `bot_client_data` subtree), structural fields such as
`id` and `etag` are rejected, and the protocol's claim and completion
writes — which in this codebase arrive through the very same patch
endpoint and target `current`, `last` and `history` — are accepted. -/
def Task.canSet (prop : String) (_value : Option Value) : Bool :=
  ["bot_client_data", "current", "last", "history"].contains prop

/-- One JSON-Patch operation, as in `fast-json-patch` (and the shared
`Operation` type used by the runner). -/
structure PatchOp where
  op : String
  path : String
  value : Option Value := none
deriving Repr

/-- `const [, prop] = op.path.split('/')`: the top-level property a patch
operation targets. -/
def PatchOp.prop (op : PatchOp) : String :=
  ((jsSplit op.path '/').get? 1).getD ""

/-- The operation names the broker's validator treats as mutating. -/
def mutatingOps : List String :=
  ["add", "copy", "move", "remove", "replace"]

/-- The validator callback `Server.patchJob` passes to
`jsonpatch.applyPatch`: non-mutating operations pass through, a mutating
operation on a property `Task.canSet` rejects throws a `JsonPatchError`. -/
def patchValidatorRejects (op : PatchOp) : Bool :=
  mutatingOps.contains op.op && !(Task.canSet op.prop op.value)

/-- Embedding of `fast-json-patch`'s `applyOperation` on the task
document, restricted to the paths the broker's whitelist admits (the
`current`, `last`, history-append and `bot_client_data` writes the
protocol and clients emit); operations that are rejected by the
validator are never handed to it. -/
def applyOperation (t : Task) (op : PatchOp) : Task :=
  match jsSplit op.path '/' with
  | ["", "current"] =>
    if op.op == "remove" then { t with current := none }
    else if op.op == "add" || op.op == "replace" then { t with current := op.value }
    else t
  | ["", "last"] =>
    if op.op == "remove" then { t with last := none }
    else if op.op == "add" || op.op == "replace" then { t with last := op.value }
    else t
  | ["", "history", "-"] =>
    if op.op == "add" then
      { t with history := t.history ++ (match op.value with
          | some v => [v]
          | none => []) }
    else t
  | ["", "bot_client_data"] =>
    if op.op == "remove" then { t with bot_client_data := none }
    else if op.op == "add" || op.op == "replace" then { t with bot_client_data := op.value }
    else t
  | _ => t

/-- Embedding of `jsonpatch.applyPatch(task, ops, validator)` as called
by `Server.patchJob`: operations are validated and applied one at a
time, mutating the document in place; a validator throw aborts the loop
at that operation, and — because the document is mutated in place — the
operations already applied are NOT rolled back.  Returns the (possibly
partially) mutated task and the error message, if any. -/
def applyPatchWithValidator : Task → List PatchOp → Task × Option String
  | t, [] => (t, none)
  | t, op :: rest =>
    if patchValidatorRejects op then
      (t, some ("unable to patch " ++ op.prop ++ " on task " ++ t.id))
    else applyPatchWithValidator (applyOperation t op) rest

/-- Outcome of a `PATCH /api/jobs/{id}` request: the HTTP status the
broker answers with, plus the `ETag` response header on success. -/
inductive PatchOutcome where
  | notFound (msg : String)
  | preconditionFailed (msg : String)
  | badRequest (msg : String)
  | ok (etagHeader : String)
deriving Repr, DecidableEq

/-- Outcome of a `GET /api/jobs/{id}` request. -/
inductive GetOutcome where
  | notFound (msg : String)
  | ok (body : String) (etagHeader : String)
deriving Repr, DecidableEq

/-- `this.broker.getTask(id)`: the broker store is a list of tasks with
unique ids (spec §4.1). -/
def getTask (tasks : List Task) (id : String) : Option Task :=
  tasks.find? (fun t => t.id == id)

/-- In-place mutation of the stored task object: replace the task with
the given id. -/
def updateTask (tasks : List Task) (id : String) (t' : Task) : List Task :=
  tasks.map (fun t => if t.id == id then t' else t)

/-- Embedding of `Server.getJob`: look up the task, serialize its public
subset, STORE the freshly computed etag on the task (`task.etag = etag`)
and answer the body with the etag as the `ETag` header. -/
def Server.getJob (tasks : List Task) (id : String) :
    List Task × GetOutcome :=
  match getTask tasks id with
  | none => (tasks, .notFound ("Unknown job " ++ id))
  | some task =>
    let (body, etag) := getTaskBody task
    (updateTask tasks id { task with etag := some etag }, .ok body etag)

/-- Embedding of `Server.patchJob`: look up the task; reject with 412
when an `If-Match` header is present (and non-empty, JS truthiness) and
differs from the STORED `task.etag`; otherwise run the validated patch
over the task in place.  A validator throw answers 400 — with the
operations already applied left in place, since the task object was
mutated directly.  On success a fresh etag for the new body is put in
the `ETag` response header, but `task.etag` itself is NOT updated. -/
def Server.patchJob (tasks : List Task) (id : String) (if_etag : Option String)
    (ops : List PatchOp) : List Task × PatchOutcome :=
  match getTask tasks id with
  | none => (tasks, .notFound ("Unknown job " ++ id))
  | some task =>
    if (match if_etag with
        | some e => e != "" && some e != task.etag
        | none => false) then
      (tasks, .preconditionFailed ("Invalid If-Match header: " ++ if_etag.getD ""))
    else
      match applyPatchWithValidator task ops with
      | (task', some msg) => (updateTask tasks id task', .badRequest msg)
      | (task', none) =>
        let (_, etag) := getTaskBody task'
        (updateTask tasks id task', .ok etag)

/-- The `id` property of a serialized job, as read back by
`getJobs` (`task.id` on the public subset). -/
def idOf (v : Value) : String :=
  match jsGet (some v) "id" with
  | some (.str s) => s
  | _ => ""

/-- Embedding of `Server.getJobs`: serialize every task's public subset,
filter by the query, and answer the matching ids only. -/
def Server.getJobs (tasks : List Task) (query : List (String × String)) :
    List String :=
  (Server.filter (tasks.map Task.publicSubset) query).map idOf

/-- Embedding of `Server.putLog` / `task.logText` (the log store append;
`logText` itself lives in `task.ts`, modelled from the spec's
"append-only text buffer per job").  Unconditional: not gated by any
etag. -/
def Server.putLog (tasks : List Task) (id : String) (body : String) :
    List Task × Bool :=
  match getTask tasks id with
  | none => (tasks, false)
  | some task => (updateTask tasks id { task with log := task.log ++ body }, true)

def asciiLowerChar (c : Char) : Char :=
  if 'A' ≤ c ∧ c ≤ 'Z' then Char.ofNat (c.toNat + 32) else c

def asciiLower (s : String) : String :=
  String.mk (s.data.map asciiLowerChar)

/-- HTTP header lookup as `express`' `req.header(name)` performs it:
header names compare case-insensitively. -/
def headerLookup (headers : List (String × String)) (name : String) :
    Option String :=
  (headers.find? (fun h => asciiLower h.1 == asciiLower name)).map (fun h => h.2)

/-- The runner's per-job bookkeeping once `poll` has fetched a job:
`this.etag`, `this.jobId` and `this.timeBegun` (runner.ts), next to the
constructor-assigned `uuid` and `platform`. -/
structure RunnerState where
  uuid : String
  platform : String
  etag : String
  jobId : String
  timeBegun : Int
deriving Repr, DecidableEq

/-- `poll` after `fetchJobAndEtag`: record the fetched etag, the job id
and `Date.now()` as the claim timestamp. -/
def Runner.beginJob (uuid platform jobId initialEtag : String) (now : Int) :
    RunnerState :=
  { uuid := uuid, platform := platform, etag := initialEtag,
    jobId := jobId, timeBegun := now }

/-- A `PATCH /api/jobs/{id}` request as the runner assembles it. -/
structure PatchRequest where
  jobId : String
  headers : List (String × String)
  ops : List PatchOp
deriving Repr

/-- Embedding of `Runner.patchJob`'s request construction: the runner
puts its latest known etag in a request header NAMED `etag`
(`headers: { etag: this.etag }`), alongside the JSON-Patch body. -/
def Runner.patchJobRequest (r : RunnerState) (patches : List PatchOp) :
    PatchRequest :=
  { jobId := r.jobId, headers := [("etag", r.etag)], ops := patches }

/-- The claim patch `poll` sends: one `replace` of `/current` with
`{runner: this.uuid, time_begun: this.timeBegun}`. -/
def Runner.claimOps (r : RunnerState) : List PatchOp :=
  [{ op := "replace", path := "/current",
     value := some (Current.encode { runner := r.uuid, time_begun := r.timeBegun }) }]

/-- The broker serving one `PATCH /api/jobs/{id}` HTTP request: the
precondition comes from the request's `If-Match` header. -/
def Server.servePatch (tasks : List Task) (req : PatchRequest) :
    List Task × PatchOutcome :=
  Server.patchJob tasks req.jobId (headerLookup req.headers "If-Match") req.ops

/-- A `Partial<Result>` as produced by `runBisect`'s classification
handlers: only `status`, `error` and `bisect_range` are ever set. -/
structure PartialResult where
  status : Option String := none
  error : Option String := none
  bisect_range : Option (String × String) := none
deriving Repr, DecidableEq

/-- `Object.assign(defaults, result)` in `Runner.patchResult`: the
defaults supply this runner's uuid, the `system_error` status, the claim
timestamp `this.timeBegun` and `Date.now()` as `time_ended`; fields
present on the classification partial override the defaults. -/
def Runner.mergeResult (r : RunnerState) (now : Int) (res : PartialResult) :
    Result :=
  { runner := r.uuid,
    status := res.status.getD "system_error",
    time_begun := r.timeBegun,
    time_ended := now,
    error := res.error,
    bisect_range := res.bisect_range }

/-- The single patch body `Runner.patchResult` sends: append the result
to `history`, `replace` `last` with the same result, `remove` `current`. -/
def Runner.patchResultOps (res : Result) : List PatchOp :=
  [{ op := "add", path := "/history/-", value := some res.encode },
   { op := "replace", path := "/last", value := some res.encode },
   { op := "remove", path := "/current" }]

/-- The one HTTP request `Runner.patchResult` makes, via `patchJob`. -/
def Runner.patchResultRequest (r : RunnerState) (now : Int) (res : PartialResult) :
    PatchRequest :=
  Runner.patchJobRequest r (Runner.patchResultOps (Runner.mergeResult r now res))

/-- The structured outcome of invoking `parseFiddleBisectOutput` on the
subprocess standard output.  The Output Parser is an external contract
(spec §2): it reports a narrowed pair (`res.success`), reports that it
could not narrow, or throws. -/
inductive ParseOutcome where
  | narrowed (goodVersion badVersion : String)
  | couldNotNarrow
  | threw (msg : String)
deriving Repr, DecidableEq

/-- The `close`-handler classification in `Runner.runBisect`: a
successful narrow yields `success` with the narrowed pair; a
could-not-narrow outcome yields `test_error` exactly when the subprocess
exit code was `1` (and `system_error` otherwise, including a `null` code
after a forced kill); a parser throw yields `system_error` carrying the
exception text. -/
def Runner.classifyClose (outcome : ParseOutcome) (exitCode : Option Int) :
    PartialResult :=
  match outcome with
  | .narrowed g b => { status := some "success", bisect_range := some (g, b) }
  | .couldNotNarrow =>
    { error := some "Failed to narrow test down to two versions",
      status := some (if exitCode == some 1 then "test_error" else "system_error") }
  | .threw msg => { status := some "system_error", error := some msg }

/-- The `error`-handler classification in `Runner.runBisect` (subprocess
spawn failure). -/
def Runner.classifySpawnError (err : String) : PartialResult :=
  { error := some err, status := some "system_error" }

/-- Embedding of the query string `Runner.fetchAvailableJobs` appends to
the broker's list endpoint. -/
def Runner.fetchAvailableJobsQuery (platform : String) :
    List (String × String) :=
  [("platform", platform ++ ",undefined"),
   ("current.runner", "undefined"),
   ("last.status", "undefined"),
   ("type", "bisect")]

/-- Abstract state of the runner's timer-driven poll loop: the number of
`poll` invocations currently in flight. -/
structure PollLoop where
  ticksActive : Nat
deriving Repr, DecidableEq

inductive LoopEvent where
  | timerFire
  | tickDone
deriving Repr, DecidableEq

/-- `Runner.pollSafely` as scheduled by `setInterval` in `Runner.start`:
its whole body is `this.poll().catch(...)` — it consults no state before
starting a new `poll`, so a timer fire unconditionally begins one more
in-flight tick. -/
def Runner.pollSafelyFire (s : PollLoop) : PollLoop :=
  { ticksActive := s.ticksActive + 1 }

def loopStep (s : PollLoop) : LoopEvent → PollLoop
  | .timerFire => Runner.pollSafelyFire s
  | .tickDone => { ticksActive := s.ticksActive - 1 }

/-- Which events the embedded loop admits in a state: the interval timer
fires regardless of any in-flight tick (neither `start` nor `pollSafely`
guards against re-entry), and a tick can only finish while one is
active. -/
def loopEventAllowed (s : PollLoop) : LoopEvent → Bool
  | .timerFire => true
  | .tickDone => decide (0 < s.ticksActive)

def loopRun (s : PollLoop) (es : List LoopEvent) : PollLoop :=
  es.foldl loopStep s

def loopTraceAllowed : PollLoop → List LoopEvent → Bool
  | _, [] => true
  | s, e :: es => loopEventAllowed s e && loopTraceAllowed (loopStep s e) es

def PatchOutcome.isOk : PatchOutcome → Bool
  | .ok _ => true
  | _ => false

/-! ## Concrete fixtures -/

/-- A freshly created, unclaimed, never-run bisect job. -/
def job1 : Task :=
  { id := "j1", type := "bisect",
    bisect_range := .arr [.str "v1", .str "v5"],
    gist := "gist1" }

/-- Worker A reads the job (storing the etag broker-side). -/
def c1_fetchA := Server.getJob [job1] "j1"

/-- The etag both workers observe. -/
def c1_e0 : String :=
  match c1_fetchA.2 with
  | .ok _ e => e
  | _ => ""

/-- Worker B reads the same unclaimed job: same body, same etag. -/
def c1_fetchB := Server.getJob c1_fetchA.1 "j1"

def c1_runnerA : RunnerState := Runner.beginJob "runner-A" "linux" "j1" c1_e0 100

def c1_runnerB : RunnerState := Runner.beginJob "runner-B" "linux" "j1" c1_e0 101

/-- The broker serves worker A's claim patch. -/
def c1_claimA := Server.servePatch c1_fetchB.1 (Runner.patchJobRequest c1_runnerA (Runner.claimOps c1_runnerA))

/-- The broker then serves worker B's claim patch, still conditioned (as
worker B intends) on the pre-claim etag. -/
def c1_claimB := Server.servePatch c1_claimA.1 (Runner.patchJobRequest c1_runnerB (Runner.claimOps c1_runnerB))

/-- A client reads the job: the broker stores etag `c2_e0`. -/
def c2_fetch := Server.getJob [job1] "j1"

def c2_e0 : String :=
  match c2_fetch.2 with
  | .ok _ e => e
  | _ => ""

/-- A first conditional patch, `If-Match: c2_e0`, changing the visible
body (an allowed `bot_client_data` write). -/
def c2_patch1 := Server.patchJob c2_fetch.1 "j1" (some c2_e0)
  [{ op := "replace", path := "/bot_client_data", value := some (.str "x") }]

/-- The etag of the new visible body, returned in the first patch's
`ETag` response header. -/
def c2_e1 : String :=
  match c2_patch1.2 with
  | .ok e => e
  | _ => ""

/-- A second conditional patch carrying the now-stale `If-Match: c2_e0`. -/
def c2_patch2 := Server.patchJob c2_patch1.1 "j1" (some c2_e0)
  [{ op := "replace", path := "/bot_client_data", value := some (.str "y") }]

/-- The allowed operation placed before the disallowed one. -/
def c3_front : List PatchOp :=
  [{ op := "replace", path := "/bot_client_data", value := some (.str "x") }]

/-- A mutating operation on a field `Task.canSet` rejects. -/
def c3_bad : PatchOp :=
  { op := "replace", path := "/id", value := some (.str "evil") }

def c3_ops : List PatchOp := c3_front ++ c3_bad :: []

def c3_patch := Server.patchJob [job1] "j1" none c3_ops

/-- The job as it stands claimed by worker A. -/
def job2 : Task :=
  { job1 with current := some (Current.encode { runner := "runner-A", time_begun := 100 }) }

def c4_runner : RunnerState := Runner.beginJob "runner-A" "linux" "j1" "etag0" 100

def c4_partial : PartialResult :=
  { status := some "success", bisect_range := some ("v3", "v4") }

/-- A successful unconditional patch, used to exhibit the response-header
etag of a successful PATCH. -/
def c9_patch := Server.patchJob [job1] "j1" none
  [{ op := "replace", path := "/bot_client_data", value := some (.str "x") }]

def c9_e : String :=
  match c9_patch.2 with
  | .ok e => e
  | _ => ""

/-- The spec's filter example jobs: `A{platform:"mac"}`,
`B{platform:"win"}`, `C{platform:undefined}`. -/
def jobA : Value := .obj [("platform", .str "mac")]

def jobB : Value := .obj [("platform", .str "win")]

def jobC : Value := .obj []

/-! ## Claims -/

/-- C1: the claim says that of two concurrent claim patches conditioned
on the same fetched etag exactly one succeeds and the other is rejected
with 412, the worker's `patchJob` carrying the fetched etag as the
precondition the broker's `If-Match` check compares against.  The code
does not do this: `Runner.patchJob` sends the etag under a header NAMED
`etag` (`headers: { etag: this.etag }`), while `Server.patchJob` reads
the `If-Match` header — so the broker sees no precondition at all, both
claim patches succeed with 200, and the second worker's claim silently
overwrites the first (here `runner-B` wins although `runner-A` claimed
first). -/
theorem C1_both_concurrent_claims_succeed :
    (∀ e : String, headerLookup [("etag", e)] "If-Match" = none)
    ∧ (match c1_fetchB.2 with
       | .ok _ e => e
       | _ => "") = c1_e0
    ∧ c1_claimA.2.isOk = true
    ∧ c1_claimB.2.isOk = true
    ∧ (getTask c1_claimB.1 "j1").map Task.current
        = some (some (Current.encode { runner := "runner-B", time_begun := 101 })) :=
  ⟨fun _ => rfl, rfl, rfl, rfl, rfl⟩

/-- C8: the claim says a new poll tick never begins while a previous
tick is still active.  The code has no such guard: `start` registers
`pollSafely` with a bare `setInterval`, and `pollSafely` launches
`this.poll()` without consulting any in-flight state, so a timer fire
during a long-running tick (e.g. a subprocess outlasting the poll
interval) starts a second concurrent poll.  The trace below is admitted
by the embedded loop and reaches two polls in flight. -/
theorem C8_timer_reentry_reaches_two_active_polls :
    loopTraceAllowed { ticksActive := 0 } [.timerFire, .timerFire] = true
    ∧ (loopRun { ticksActive := 0 } [.timerFire]).ticksActive = 1
    ∧ loopStep (loopRun { ticksActive := 0 } [.timerFire]) .timerFire
        = Runner.pollSafelyFire (loopRun { ticksActive := 0 } [.timerFire])
    ∧ (loopRun { ticksActive := 0 } [.timerFire, .timerFire]).ticksActive = 2 :=
  ⟨rfl, rfl, rfl, rfl⟩

/-- C2: the claim says every PATCH whose `If-Match` differs from the
etag of the job's current externally visible body is rejected with 412
and applies nothing, in particular immediately after an earlier
successful patch changed the visible body.  The code compares `If-Match`
against the STORED `task.etag`, which only `getJob` updates — a
successful patch computes the new etag solely for its response header —
so right after the first patch the stored etag is stale: the second
patch's `If-Match: c2_e0` differs from the current body's etag `c2_e1`
yet is accepted with 200 and its operation is applied (a lost update). -/
theorem C2_stale_if_match_accepted_after_patch :
    c2_patch1.2 = .ok c2_e1
    ∧ c2_e1 ≠ c2_e0
    ∧ (getTask c2_patch1.1 "j1").map Task.etag = some (some c2_e0)
    ∧ (getTask c2_patch1.1 "j1").map (fun t => (getTaskBody t).2) = some c2_e1
    ∧ c2_patch2.2.isOk = true
    ∧ (getTask c2_patch2.1 "j1").map Task.bot_client_data = some (some (.str "y")) :=
  ⟨rfl, by decide, rfl, rfl, rfl, rfl⟩

/-- C3 counterexample: a batch whose second operation is disallowed is
answered with 400, as claimed — but the job is NOT left as it was:
`jsonpatch.applyPatch` validates and applies the operations one at a
time against the live task object, so the allowed `bot_client_data`
write preceding the disallowed `id` write has already been applied when
the validator throws, and it is not rolled back. -/
theorem C3_counterexample_preceding_op_stays_applied :
    patchValidatorRejects c3_bad = true
    ∧ c3_patch.2 = .badRequest "unable to patch id on task j1"
    ∧ job1.bot_client_data = none
    ∧ (getTask c3_patch.1 "j1").map Task.bot_client_data = some (some (.str "x")) :=
  ⟨rfl, rfl, rfl, rfl⟩

theorem applyOperation_id (t : Task) (op : PatchOp) :
    (applyOperation t op).id = t.id := by
  unfold applyOperation
  split <;> first
    | rfl
    | split_ifs <;> rfl

theorem foldl_applyOperation_id (front : List PatchOp) (t : Task) :
    (front.foldl applyOperation t).id = t.id := by
  induction front generalizing t with
  | nil => rfl
  | cons o front ih => rw [List.foldl_cons, ih, applyOperation_id]

theorem applyPatchWithValidator_reject (front : List PatchOp) (bad : PatchOp)
    (rest : List PatchOp) (t : Task)
    (hfront : ∀ o ∈ front, patchValidatorRejects o = false)
    (hbad : patchValidatorRejects bad = true) :
    applyPatchWithValidator t (front ++ bad :: rest)
      = (front.foldl applyOperation t,
         some ("unable to patch " ++ bad.prop ++ " on task " ++ t.id)) := by
  induction front generalizing t with
  | nil =>
    simp only [List.nil_append, List.foldl_nil, applyPatchWithValidator, hbad, if_true]
  | cons o front ih =>
    have ho : patchValidatorRejects o = false := hfront o (List.mem_cons_self o front)
    have hrec := ih (applyOperation t o) (fun o' h => hfront o' (List.mem_cons_of_mem o h))
    rw [applyOperation_id] at hrec
    simp only [List.cons_append, applyPatchWithValidator, ho, Bool.false_eq_true, if_false,
      List.foldl_cons]
    exact hrec

/-- C3 amended: a PATCH whose batch contains a disallowed mutating
operation is rejected with 400 and no operation from the first
disallowed one onward is applied — but the (in-place) application is
sequential, not atomic: every mutating operation preceding the first
disallowed one has been applied and remains on the job.  The job is left
unmodified only when the disallowed operation comes first. -/
theorem C3_amended_sequential_abort (tasks : List Task) (id : String) (task : Task)
    (front : List PatchOp) (bad : PatchOp) (rest : List PatchOp)
    (hfind : getTask tasks id = some task)
    (hfront : ∀ o ∈ front, patchValidatorRejects o = false)
    (hbad : patchValidatorRejects bad = true) :
    Server.patchJob tasks id none (front ++ bad :: rest)
      = (updateTask tasks id (front.foldl applyOperation task),
         .badRequest ("unable to patch " ++ bad.prop ++ " on task " ++ task.id)) := by
  have h := applyPatchWithValidator_reject front bad rest task hfront hbad
  simp only [Server.patchJob, hfind, h, Bool.false_eq_true, if_false]

theorem C3_amended_sequential_abort_witness :
    getTask [job1] "j1" = some job1
    ∧ (∀ o ∈ c3_front, patchValidatorRejects o = false)
    ∧ patchValidatorRejects c3_bad = true
    ∧ Server.patchJob [job1] "j1" none (c3_front ++ c3_bad :: [])
        = (updateTask [job1] "j1" (c3_front.foldl applyOperation job1),
           .badRequest ("unable to patch " ++ c3_bad.prop ++ " on task " ++ job1.id)) :=
  ⟨rfl, by decide, rfl,
   C3_amended_sequential_abort [job1] "j1" job1 c3_front c3_bad [] rfl (by decide) rfl⟩

/-- C10: every result the worker reports — whatever partial the
classification step produced — carries this worker's uuid as `runner`,
the claim-time timestamp as `time_begun`, a `time_ended` timestamp, and
a status defaulting to `system_error` when the classification supplied
none (`Object.assign` with the defaults in `patchResult`). -/
theorem C10_reported_result_carries_defaults (uuid platform jobId etag : String)
    (now0 now1 : Int) (p : PartialResult) :
    (Runner.mergeResult (Runner.beginJob uuid platform jobId etag now0) now1 p).runner = uuid
    ∧ (Runner.mergeResult (Runner.beginJob uuid platform jobId etag now0) now1 p).time_begun = now0
    ∧ (Runner.mergeResult (Runner.beginJob uuid platform jobId etag now0) now1 p).time_ended = now1
    ∧ (Runner.mergeResult (Runner.beginJob uuid platform jobId etag now0) now1 p).status
        = p.status.getD "system_error"
    ∧ (p.status = none →
        (Runner.mergeResult (Runner.beginJob uuid platform jobId etag now0) now1 p).status
          = "system_error") := by
  refine ⟨rfl, rfl, rfl, rfl, fun h => ?_⟩
  simp [Runner.mergeResult, h]

theorem C10_reported_result_carries_defaults_witness :
    (({} : PartialResult).status = none)
    ∧ (Runner.mergeResult (Runner.beginJob "u" "linux" "j1" "e" 5) 9 {}).runner = "u"
    ∧ (Runner.mergeResult (Runner.beginJob "u" "linux" "j1" "e" 5) 9 {}).time_begun = 5
    ∧ (Runner.mergeResult (Runner.beginJob "u" "linux" "j1" "e" 5) 9 {}).status = "system_error" :=
  ⟨rfl,
   (C10_reported_result_carries_defaults "u" "linux" "j1" "e" 5 9 {}).1,
   (C10_reported_result_carries_defaults "u" "linux" "j1" "e" 5 9 {}).2.1,
   (C10_reported_result_carries_defaults "u" "linux" "j1" "e" 5 9 {}).2.2.2.2 rfl⟩

/-- C5: the `close`/`error` handlers of `runBisect` classify a
subprocess exit exactly as claimed: a successful narrow reports
`success` with the narrowed pair; an uninterpretable output reports
`test_error` exactly when the exit code is 1 and `system_error` for any
other exit code (including a `null` code); a parser throw reports
`system_error` with the exception text; a spawn error reports
`system_error` with the error text. -/
theorem C5_runBisect_outcome_classification (r : RunnerState) (now : Int)
    (g b m : String) (exitCode : Option Int) :
    ((Runner.mergeResult r now (Runner.classifyClose (.narrowed g b) exitCode)).status = "success"
      ∧ (Runner.mergeResult r now (Runner.classifyClose (.narrowed g b) exitCode)).bisect_range
          = some (g, b))
    ∧ (Runner.mergeResult r now (Runner.classifyClose .couldNotNarrow exitCode)).status
        = (if exitCode = some 1 then "test_error" else "system_error")
    ∧ ((Runner.mergeResult r now (Runner.classifyClose (.threw m) exitCode)).status = "system_error"
      ∧ (Runner.mergeResult r now (Runner.classifyClose (.threw m) exitCode)).error = some m)
    ∧ ((Runner.mergeResult r now (Runner.classifySpawnError m)).status = "system_error"
      ∧ (Runner.mergeResult r now (Runner.classifySpawnError m)).error = some m) := by
  refine ⟨⟨rfl, rfl⟩, ?_, ⟨rfl, rfl⟩, rfl, rfl⟩
  by_cases h : exitCode = some 1 <;>
    simp [Runner.mergeResult, Runner.classifyClose, h]

/-- C4: `Runner.patchResult` reports a completion in ONE patch request
containing exactly three operations — append the `Result` to `history`,
set `last` to the very same `Result` value, and remove `current` — and
the request carries the worker's latest known etag; served by the
broker, the one request transitions the job in a single mutation to
"current absent, history appended, last set to the identical value". -/
theorem C4_report_is_one_patch_of_three_ops (r : RunnerState) (now : Int)
    (p : PartialResult) (tasks : List Task) (task : Task)
    (hfind : getTask tasks r.jobId = some task) :
    (Runner.patchResultRequest r now p).ops =
      [{ op := "add", path := "/history/-", value := some (Runner.mergeResult r now p).encode },
       { op := "replace", path := "/last", value := some (Runner.mergeResult r now p).encode },
       { op := "remove", path := "/current", value := none }]
    ∧ (Runner.patchResultRequest r now p).headers = [("etag", r.etag)]
    ∧ Server.servePatch tasks (Runner.patchResultRequest r now p)
        = (updateTask tasks r.jobId
            { task with history := task.history ++ [(Runner.mergeResult r now p).encode],
                        last := some (Runner.mergeResult r now p).encode,
                        current := none },
           .ok (getTaskBody
            { task with history := task.history ++ [(Runner.mergeResult r now p).encode],
                        last := some (Runner.mergeResult r now p).encode,
                        current := none }).2) := by
  refine ⟨rfl, rfl, ?_⟩
  show Server.patchJob tasks r.jobId none
      (Runner.patchResultOps (Runner.mergeResult r now p)) = _
  unfold Server.patchJob
  rw [hfind]
  rfl

theorem C4_report_is_one_patch_of_three_ops_witness :
    getTask [job2] "j1" = some job2
    ∧ Server.servePatch [job2] (Runner.patchResultRequest c4_runner 200 c4_partial)
        = (updateTask [job2] "j1"
            { job2 with history := job2.history ++ [(Runner.mergeResult c4_runner 200 c4_partial).encode],
                        last := some (Runner.mergeResult c4_runner 200 c4_partial).encode,
                        current := none },
           .ok (getTaskBody
            { job2 with history := job2.history ++ [(Runner.mergeResult c4_runner 200 c4_partial).encode],
                        last := some (Runner.mergeResult c4_runner 200 c4_partial).encode,
                        current := none }).2) :=
  ⟨rfl, (C4_report_is_one_patch_of_three_ops c4_runner 200 c4_partial [job2] job2 rfl).2.2⟩

theorem applyOperation_etag (t : Task) (op : PatchOp) :
    (applyOperation t op).etag = t.etag := by
  unfold applyOperation
  split <;> first
    | rfl
    | split_ifs <;> rfl

theorem applyPatchWithValidator_fst_etag (ops : List PatchOp) (t : Task) :
    (applyPatchWithValidator t ops).1.etag = t.etag := by
  induction ops generalizing t with
  | nil => rfl
  | cons op rest ih =>
    unfold applyPatchWithValidator
    split_ifs with h
    · rfl
    · rw [ih, applyOperation_etag]

theorem applyPatchWithValidator_fst_id (ops : List PatchOp) (t : Task) :
    (applyPatchWithValidator t ops).1.id = t.id := by
  induction ops generalizing t with
  | nil => rfl
  | cons op rest ih =>
    unfold applyPatchWithValidator
    split_ifs with h
    · rfl
    · rw [ih, applyOperation_id]

theorem getTask_cons_pos (x : Task) (xs : List Task) (id : String)
    (hx : (x.id == id) = true) : getTask (x :: xs) id = some x := by
  unfold getTask
  rw [List.find?_cons]
  simp only [hx]

theorem getTask_cons_neg (x : Task) (xs : List Task) (id : String)
    (hx : (x.id == id) = false) : getTask (x :: xs) id = getTask xs id := by
  unfold getTask
  rw [List.find?_cons]
  simp only [hx]

theorem updateTask_cons (x : Task) (xs : List Task) (id : String) (t' : Task) :
    updateTask (x :: xs) id t'
      = (if x.id == id then t' else x) :: updateTask xs id t' := rfl

theorem getTask_updateTask (tasks : List Task) (id : String) (task t' : Task)
    (hfind : getTask tasks id = some task) (hid : t'.id = task.id) :
    getTask (updateTask tasks id t') id = some t' := by
  induction tasks with
  | nil => simp [getTask] at hfind
  | cons x xs ih =>
    by_cases hx : (x.id == id) = true
    · have htask : task = x := by
        rw [getTask_cons_pos x xs id hx] at hfind
        exact (Option.some.inj hfind).symm
      have ht' : (t'.id == id) = true := by
        rw [hid, htask]
        exact hx
      rw [updateTask_cons, if_pos hx, getTask_cons_pos t' _ id ht']
    · have hxb : (x.id == id) = false := by simpa using hx
      have hxs : getTask xs id = some task := by
        rw [getTask_cons_neg x xs id hxb] at hfind
        exact hfind
      rw [updateTask_cons, if_neg hx, getTask_cons_neg _ _ id hxb]
      exact ih hxs

theorem updateTask_not_present (xs : List Task) (id : String) (t' : Task)
    (h : ∀ y ∈ xs, (y.id == id) = false) : updateTask xs id t' = xs := by
  induction xs with
  | nil => rfl
  | cons y ys ih =>
    rw [updateTask_cons, if_neg (by simp [h y (List.mem_cons_self y ys)]),
      ih (fun z hz => h z (List.mem_cons_of_mem y hz))]

theorem updateTask_map_etag (tasks : List Task) (id : String) (task t' : Task)
    (huniq : tasks.Pairwise (fun a b => a.id ≠ b.id))
    (hfind : getTask tasks id = some task) (hetag : t'.etag = task.etag) :
    (updateTask tasks id t').map Task.etag = tasks.map Task.etag := by
  induction tasks with
  | nil => rfl
  | cons x xs ih =>
    have hp := List.pairwise_cons.mp huniq
    by_cases hx : (x.id == id) = true
    · have htask : task = x := by
        rw [getTask_cons_pos x xs id hx] at hfind
        exact (Option.some.inj hfind).symm
      have hxid : x.id = id := by simpa using hx
      have htail : updateTask xs id t' = xs := by
        refine updateTask_not_present xs id t' (fun y hy => ?_)
        have hne : x.id ≠ y.id := hp.1 y hy
        simp only [beq_eq_false_iff_ne, ne_eq]
        rw [← hxid]
        exact fun e => hne e.symm
      rw [updateTask_cons, if_pos hx, htail, List.map_cons, List.map_cons, hetag, htask]
    · have hxb : (x.id == id) = false := by simpa using hx
      have hxs : getTask xs id = some task := by
        rw [getTask_cons_neg x xs id hxb] at hfind
        exact hfind
      rw [updateTask_cons, if_neg hx, List.map_cons, List.map_cons, ih hp.2 hxs]

/-- C9: a successful `GET /api/jobs/{id}` stores the etag of the freshly
serialized visible body on the task as a side effect of the read
(`task.etag = etag`), and this read is the only operation that updates
the stored etag the `If-Match` comparison uses: a PATCH — whatever its
outcome — leaves every task's stored etag unchanged, while a successful
PATCH computes the fresh etag of the new body only for its `ETag`
response header. -/
theorem C9_only_get_updates_stored_etag :
    (∀ (tasks : List Task) (id : String) (task : Task),
       getTask tasks id = some task →
       Server.getJob tasks id
         = (updateTask tasks id { task with etag := some (getTaskBody task).2 },
            .ok (getTaskBody task).1 (getTaskBody task).2))
    ∧ (∀ (tasks : List Task) (id : String) (if_etag : Option String)
         (ops : List PatchOp),
       tasks.Pairwise (fun a b => a.id ≠ b.id) →
       ((Server.patchJob tasks id if_etag ops).1).map Task.etag = tasks.map Task.etag)
    ∧ (∀ (tasks : List Task) (id : String) (if_etag : Option String)
         (ops : List PatchOp) (tasks' : List Task) (e : String),
       Server.patchJob tasks id if_etag ops = (tasks', .ok e) →
       ∃ t', getTask tasks' id = some t'
         ∧ e = (getTaskBody t').2
         ∧ (getTask tasks id).map Task.etag = some t'.etag) := by
  refine ⟨?_, ?_, ?_⟩
  · intro tasks id task hfind
    unfold Server.getJob
    rw [hfind]
  · intro tasks id if_etag ops huniq
    unfold Server.patchJob
    cases hg : getTask tasks id with
    | none => rfl
    | some task =>
      dsimp only
      split_ifs with hpre
      · rfl
      · have hetag := applyPatchWithValidator_fst_etag ops task
        cases happ : applyPatchWithValidator task ops with
        | mk task' err =>
          rw [happ] at hetag
          cases err with
          | some msg =>
            exact updateTask_map_etag tasks id task task' huniq hg hetag
          | none =>
            exact updateTask_map_etag tasks id task task' huniq hg hetag
  · intro tasks id if_etag ops tasks' e h
    unfold Server.patchJob at h
    cases hg : getTask tasks id with
    | none =>
      rw [hg] at h
      exact absurd (congrArg Prod.snd h) (by simp)
    | some task =>
      rw [hg] at h
      dsimp only at h
      split_ifs at h with hpre
      · exact absurd (congrArg Prod.snd h) (by simp)
      · have hetag := applyPatchWithValidator_fst_etag ops task
        have hid := applyPatchWithValidator_fst_id ops task
        cases happ : applyPatchWithValidator task ops with
        | mk task' err =>
          rw [happ] at hetag hid h
          cases err with
          | some msg => exact absurd (congrArg Prod.snd h) (by simp)
          | none =>
            have h1 : tasks' = updateTask tasks id task' := (congrArg Prod.fst h).symm
            have h2 : e = (getTaskBody task').2 := by
              have := congrArg Prod.snd h
              simp only [PatchOutcome.ok.injEq] at this
              exact this.symm
            refine ⟨task', ?_, h2, ?_⟩
            · rw [h1]
              exact getTask_updateTask tasks id task task' hg hid
            · rw [show task'.etag = task.etag from hetag]
              rfl

theorem C9_only_get_updates_stored_etag_witness :
    getTask [job1] "j1" = some job1
    ∧ Server.getJob [job1] "j1"
        = (updateTask [job1] "j1" { job1 with etag := some (getTaskBody job1).2 },
           .ok (getTaskBody job1).1 (getTaskBody job1).2)
    ∧ ((Server.patchJob [job1] "j1" none
         [{ op := "replace", path := "/bot_client_data", value := some (.str "x") }]).1).map Task.etag
        = [job1].map Task.etag
    ∧ (∃ t', getTask c9_patch.1 "j1" = some t'
         ∧ c9_e = (getTaskBody t').2
         ∧ (getTask [job1] "j1").map Task.etag = some t'.etag) :=
  ⟨rfl,
   C9_only_get_updates_stored_etag.1 [job1] "j1" job1 rfl,
   C9_only_get_updates_stored_etag.2.1 [job1] "j1" none
     [{ op := "replace", path := "/bot_client_data", value := some (.str "x") }]
     (List.pairwise_singleton _ _),
   C9_only_get_updates_stored_etag.2.2 [job1] "j1" none
     [{ op := "replace", path := "/bot_client_data", value := some (.str "x") }]
     c9_patch.1 c9_e rfl⟩

theorem splitCharAux_ne_nil (sep : Char) (l : List Char) : splitCharAux sep l ≠ [] := by
  cases l with
  | nil => exact fun h => List.noConfusion h
  | cons c cs =>
    simp only [splitCharAux]
    cases h : splitCharAux sep cs with
    | nil => exact fun hh => List.noConfusion hh
    | cons r rs =>
      split_ifs <;> exact fun hh => List.noConfusion hh

theorem splitCharAux_append (sep : Char) (l₁ l₂ : List Char) :
    splitCharAux sep (l₁ ++ sep :: l₂)
      = splitCharAux sep l₁ ++ splitCharAux sep l₂ := by
  induction l₁ with
  | nil =>
    rw [List.nil_append]
    simp only [splitCharAux]
    cases h : splitCharAux sep l₂ with
    | nil => exact absurd h (splitCharAux_ne_nil sep l₂)
    | cons r rs => simp
  | cons c l₁ ih =>
    rw [List.cons_append]
    simp only [splitCharAux]
    rw [ih]
    cases h : splitCharAux sep l₁ with
    | nil => exact absurd h (splitCharAux_ne_nil sep l₁)
    | cons r rs =>
      by_cases hc : c = sep
      · simp [hc, List.cons_append]
      · simp [hc, List.cons_append]

theorem splitCharAux_no_sep (sep : Char) (l : List Char) (h : sep ∉ l) :
    splitCharAux sep l = [l] := by
  induction l with
  | nil => rfl
  | cons c cs ih =>
    have hcs : sep ∉ cs := fun m => h (List.mem_cons_of_mem c m)
    have hc : ¬(c = sep) := fun e => h (by rw [e]; exact List.mem_cons_self _ _)
    simp only [splitCharAux, ih hcs]
    rw [if_neg hc]

theorem isEmpty_false_of_ne_empty (s : String) (h : s ≠ "") : s.isEmpty = false := by
  rw [Bool.eq_false_iff]
  intro hh
  exact h ((String.isEmpty_iff s).mp hh)

theorem jsSplit_comma_append (v₁ v₂ : String) :
    jsSplit (v₁ ++ "," ++ v₂) ',' = jsSplit v₁ ',' ++ jsSplit v₂ ',' := by
  unfold jsSplit
  have hd : (v₁ ++ "," ++ v₂).data = v₁.data ++ ',' :: v₂.data := by
    rw [String.data_append, String.data_append,
      show (",").data = [','] from rfl, List.append_assoc, List.singleton_append]
  rw [hd, splitCharAux_append, List.map_append]

theorem filterQueryValues_append (v₁ v₂ : String) :
    filterQueryValues (v₁ ++ "," ++ v₂)
      = filterQueryValues v₁ ++ filterQueryValues v₂ := by
  unfold filterQueryValues
  rw [jsSplit_comma_append, List.filter_append]

theorem filterQueryValues_platform (plat : String) (h1 : plat ≠ "")
    (h2 : ',' ∉ plat.data) :
    filterQueryValues (plat ++ ",undefined") = [plat, "undefined"] := by
  unfold filterQueryValues jsSplit
  have hd : (plat ++ ",undefined").data = plat.data ++ ',' :: "undefined".data := by
    rw [String.data_append]
  rw [hd, splitCharAux_append, splitCharAux_no_sep ',' plat.data h2,
    show splitCharAux ',' "undefined".data = ["undefined".data] from rfl]
  simp only [List.cons_append, List.nil_append, List.map_cons, List.map_nil]
  rw [show String.mk plat.data = plat from rfl,
    show String.mk "undefined".data = "undefined" from rfl]
  simp [List.filter, isEmpty_false_of_ne_empty plat h1,
    isEmpty_false_of_ne_empty "undefined" (by decide)]

theorem filterPred_plain (key val : String) (c : Value)
    (hk : endsWithChar key '!' = false) :
    filterPred (key, val) c
      = (filterQueryValues val).any
          (fun v => jsLooseEq v (filterResolve (jsSplit key '.') c)) := by
  unfold filterPred
  dsimp only
  rw [hk]
  simp

theorem filterPred_negation (key val : String) (c : Value)
    (hk : endsWithChar key '!' = false) :
    filterPred (key ++ "!", val) c = !(filterPred (key, val) c) := by
  have hb : endsWithChar (key ++ "!") '!' = true := by
    unfold endsWithChar
    rw [String.data_append, show ("!").data = ['!'] from rfl]
    simp
  have hdrop : dropLastChar (key ++ "!") = key := by
    unfold dropLastChar
    rw [String.data_append, show ("!").data = ['!'] from rfl, List.dropLast_concat]
  rw [filterPred_plain key val c hk]
  unfold filterPred
  dsimp only
  rw [hb, hdrop]
  simp

theorem filterPred_or_append (key v₁ v₂ : String) (c : Value)
    (hk : endsWithChar key '!' = false) :
    filterPred (key, v₁ ++ "," ++ v₂) c
      = (filterPred (key, v₁) c || filterPred (key, v₂) c) := by
  rw [filterPred_plain key _ c hk, filterPred_plain key v₁ c hk,
    filterPred_plain key v₂ c hk, filterQueryValues_append, List.any_append]

theorem filterPred_missing_undefined (key : String) (c : Value)
    (hk : endsWithChar key '!' = false)
    (hmiss : (jsSplit key '.').foldl jsGet (some c) = none) :
    filterPred (key, "undefined") c = true := by
  rw [filterPred_plain key _ c hk]
  unfold filterResolve
  rw [hmiss]
  rfl

theorem Server.filter_sublist (l : List Value) (q : List (String × String)) :
    (Server.filter l q).Sublist l := by
  induction q generalizing l with
  | nil => exact List.Sublist.refl l
  | cons e q ih => exact (ih (Server.filterStep l e)).trans (List.filter_sublist l)

theorem Server.filter_nil_list (q : List (String × String)) :
    Server.filter [] q = [] := by
  induction q with
  | nil => rfl
  | cons e q ih => exact ih

theorem Server.filter_one (v : Value) (q : List (String × String)) :
    Server.filter [v] q
      = if q.all (fun e => filterPred e v) then [v] else [] := by
  induction q with
  | nil => rfl
  | cons e q ih =>
    by_cases h : filterPred e v = true
    · have hstep : Server.filterStep [v] e = [v] := by
        simp [Server.filterStep, List.filter, h]
      have hh : Server.filter [v] (e :: q) = Server.filter [v] q := by
        show Server.filter (Server.filterStep [v] e) q = _
        rw [hstep]
      rw [hh, ih]
      cases hq : q.all (fun e => filterPred e v) with
      | true => simp [List.all_cons, hq, h]
      | false => simp [List.all_cons, hq, h]
    · have hb : filterPred e v = false := by simpa using h
      have hstep : Server.filterStep [v] e = [] := by
        simp [Server.filterStep, List.filter, hb]
      have hh : Server.filter [v] (e :: q) = Server.filter [] q := by
        show Server.filter (Server.filterStep [v] e) q = _
        rw [hstep]
      rw [hh, Server.filter_nil_list]
      simp [List.all_cons, hb]

theorem publicSubset_platform (t : Task) :
    jsGet (some t.publicSubset) "platform" = t.platform := by
  obtain ⟨i, ty, br, g, p, c, l, hs, b, et, lg⟩ := t
  cases p <;> cases c <;> cases l <;> cases b <;> rfl

theorem publicSubset_current (t : Task) :
    jsGet (some t.publicSubset) "current" = t.current := by
  obtain ⟨i, ty, br, g, p, c, l, hs, b, et, lg⟩ := t
  cases p <;> cases c <;> cases l <;> cases b <;> rfl

theorem publicSubset_last (t : Task) :
    jsGet (some t.publicSubset) "last" = t.last := by
  obtain ⟨i, ty, br, g, p, c, l, hs, b, et, lg⟩ := t
  cases p <;> cases c <;> cases l <;> cases b <;> rfl

theorem publicSubset_type (t : Task) :
    jsGet (some t.publicSubset) "type" = some (.str t.type) := by
  obtain ⟨i, ty, br, g, p, c, l, hs, b, et, lg⟩ := t
  cases p <;> cases c <;> cases l <;> cases b <;> rfl

theorem filterPred_platform_iff (plat : String) (t : Task) (h1 : plat ≠ "")
    (h2 : ',' ∉ plat.data)
    (hjob : t.platform = none ∨ ∃ p, t.platform = some (.str p) ∧ p ≠ "undefined") :
    (filterPred ("platform", plat ++ ",undefined") t.publicSubset = true
      ↔ (t.platform = none ∨ t.platform = some (.str plat))) := by
  rw [filterPred_plain _ _ _ (by rfl), filterQueryValues_platform plat h1 h2]
  have hres : filterResolve (jsSplit "platform" '.') t.publicSubset
      = t.platform.getD (.str "undefined") := by
    unfold filterResolve
    rw [show List.foldl jsGet (some t.publicSubset) (jsSplit "platform" '.')
        = jsGet (some t.publicSubset) "platform" from rfl,
      publicSubset_platform]
  rw [hres]
  rcases hjob with hnone | ⟨p, hp, hne⟩
  · rw [hnone]
    constructor
    · intro _
      exact Or.inl rfl
    · intro _
      rw [show ((none : Option Value).getD (Value.str "undefined"))
          = Value.str "undefined" from rfl]
      simp only [List.any_cons, List.any_nil, jsLooseEq]
      simp
  · rw [hp]
    have hub : ("undefined" == p) = false :=
      beq_eq_false_iff_ne.mpr (fun e => hne e.symm)
    rw [show ((some (Value.str p)).getD (Value.str "undefined"))
        = Value.str p from rfl]
    simp only [List.any_cons, List.any_nil, jsLooseEq, hub, Bool.or_false]
    rw [beq_iff_eq]
    constructor
    · intro h
      exact Or.inr (by rw [h])
    · rintro (h | h)
      · exact absurd h (by simp)
      · have h2 : p = plat := by simpa using h
        rw [h2]

theorem filterPred_current_iff (t : Task)
    (hjob : ∀ v, t.current = some v →
      ∃ s, jsGet (some v) "runner" = some (.str s) ∧ s ≠ "undefined") :
    (filterPred ("current.runner", "undefined") t.publicSubset = true
      ↔ t.current = none) := by
  rw [filterPred_plain _ _ _ (by rfl)]
  cases hc : t.current with
  | none =>
    have hres : filterResolve (jsSplit "current.runner" '.') t.publicSubset
        = .str "undefined" := by
      unfold filterResolve
      rw [show List.foldl jsGet (some t.publicSubset) (jsSplit "current.runner" '.')
          = jsGet (jsGet (some t.publicSubset) "current") "runner" from rfl,
        publicSubset_current, hc]
      rfl
    rw [hres, show filterQueryValues "undefined" = ["undefined"] from rfl]
    simp only [List.any_cons, List.any_nil, Bool.or_false, jsLooseEq]
    simp
  | some v =>
    obtain ⟨s, hs, hne⟩ := hjob v hc
    have hres : filterResolve (jsSplit "current.runner" '.') t.publicSubset
        = .str s := by
      unfold filterResolve
      rw [show List.foldl jsGet (some t.publicSubset) (jsSplit "current.runner" '.')
          = jsGet (jsGet (some t.publicSubset) "current") "runner" from rfl,
        publicSubset_current, hc, hs]
      rfl
    rw [hres, show filterQueryValues "undefined" = ["undefined"] from rfl]
    have hub : ("undefined" == s) = false :=
      beq_eq_false_iff_ne.mpr (fun e => hne e.symm)
    simp only [List.any_cons, List.any_nil, Bool.or_false, jsLooseEq, hub]
    simp

theorem filterPred_last_iff (t : Task)
    (hjob : ∀ v, t.last = some v →
      ∃ s, jsGet (some v) "status" = some (.str s) ∧ s ≠ "undefined") :
    (filterPred ("last.status", "undefined") t.publicSubset = true
      ↔ t.last = none) := by
  rw [filterPred_plain _ _ _ (by rfl)]
  cases hc : t.last with
  | none =>
    have hres : filterResolve (jsSplit "last.status" '.') t.publicSubset
        = .str "undefined" := by
      unfold filterResolve
      rw [show List.foldl jsGet (some t.publicSubset) (jsSplit "last.status" '.')
          = jsGet (jsGet (some t.publicSubset) "last") "status" from rfl,
        publicSubset_last, hc]
      rfl
    rw [hres, show filterQueryValues "undefined" = ["undefined"] from rfl]
    simp only [List.any_cons, List.any_nil, Bool.or_false, jsLooseEq]
    simp
  | some v =>
    obtain ⟨s, hs, hne⟩ := hjob v hc
    have hres : filterResolve (jsSplit "last.status" '.') t.publicSubset
        = .str s := by
      unfold filterResolve
      rw [show List.foldl jsGet (some t.publicSubset) (jsSplit "last.status" '.')
          = jsGet (jsGet (some t.publicSubset) "last") "status" from rfl,
        publicSubset_last, hc, hs]
      rfl
    rw [hres, show filterQueryValues "undefined" = ["undefined"] from rfl]
    have hub : ("undefined" == s) = false :=
      beq_eq_false_iff_ne.mpr (fun e => hne e.symm)
    simp only [List.any_cons, List.any_nil, Bool.or_false, jsLooseEq, hub]
    simp

theorem filterPred_type_iff (t : Task) :
    (filterPred ("type", "bisect") t.publicSubset = true ↔ t.type = "bisect") := by
  rw [filterPred_plain _ _ _ (by rfl)]
  have hres : filterResolve (jsSplit "type" '.') t.publicSubset = .str t.type := by
    unfold filterResolve
    rw [show List.foldl jsGet (some t.publicSubset) (jsSplit "type" '.')
        = jsGet (some t.publicSubset) "type" from rfl,
      publicSubset_type]
    rfl
  rw [hres, show filterQueryValues "bisect" = ["bisect"] from rfl]
  simp only [List.any_cons, List.any_nil, jsLooseEq, Bool.or_false]
  rw [beq_iff_eq]
  exact eq_comm

theorem if_singleton_eq_iff (b : Bool) (v : Value) :
    ((if b then [v] else []) = [v]) ↔ b = true := by
  cases b <;> simp

/-- C6: the poll tick's query (`platform` equal to the worker's or
`undefined`, `current.runner` undefined, `last.status` undefined, `type`
`bisect`, AND-combined) selects exactly the jobs available for claim:
for any well-formed job (claim records carry a real runner id, results a
real status, platforms are real platform strings) the job passes the
filter iff its platform is unset or equals the worker's, it is
unclaimed, it has never run, and it is a bisect job — so a job with
`last` set, with `current` set, or with a different platform is never
offered. -/
theorem C6_fetch_query_selects_available (plat : String) (t : Task)
    (h1 : plat ≠ "") (h2 : ',' ∉ plat.data)
    (hplatform : t.platform = none ∨ ∃ p, t.platform = some (.str p) ∧ p ≠ "undefined")
    (hcurrent : ∀ v, t.current = some v →
      ∃ s, jsGet (some v) "runner" = some (.str s) ∧ s ≠ "undefined")
    (hlast : ∀ v, t.last = some v →
      ∃ s, jsGet (some v) "status" = some (.str s) ∧ s ≠ "undefined") :
    Runner.fetchAvailableJobsQuery plat
      = [("platform", plat ++ ",undefined"), ("current.runner", "undefined"),
         ("last.status", "undefined"), ("type", "bisect")]
    ∧ (Server.filter [t.publicSubset] (Runner.fetchAvailableJobsQuery plat)
        = [t.publicSubset]
      ↔ ((t.platform = none ∨ t.platform = some (.str plat))
         ∧ t.current = none ∧ t.last = none ∧ t.type = "bisect"))
    ∧ (Server.filter [t.publicSubset] (Runner.fetchAvailableJobsQuery plat)
        = [t.publicSubset]
      ∨ Server.filter [t.publicSubset] (Runner.fetchAvailableJobsQuery plat)
        = []) := by
  refine ⟨rfl, ?_, ?_⟩
  · rw [Server.filter_one, if_singleton_eq_iff]
    show (List.all [("platform", plat ++ ",undefined"), ("current.runner", "undefined"),
        ("last.status", "undefined"), ("type", "bisect")]
        (fun e => filterPred e t.publicSubset)) = true ↔ _
    simp only [List.all_cons, List.all_nil, Bool.and_true, Bool.and_eq_true]
    exact and_congr (filterPred_platform_iff plat t h1 h2 hplatform)
      (and_congr (filterPred_current_iff t hcurrent)
        (and_congr (filterPred_last_iff t hlast) (filterPred_type_iff t)))
  · rw [Server.filter_one]
    cases hb : (Runner.fetchAvailableJobsQuery plat).all
        (fun e => filterPred e t.publicSubset) with
    | true =>
      left
      rfl
    | false =>
      right
      rfl

theorem C6_fetch_query_selects_available_witness :
    ("linux" ≠ "" ∧ job1.platform = none ∧ job1.current = none
      ∧ job1.last = none ∧ job1.type = "bisect")
    ∧ Server.filter [job1.publicSubset] (Runner.fetchAvailableJobsQuery "linux")
        = [job1.publicSubset] :=
  ⟨⟨by decide, rfl, rfl, rfl, rfl⟩,
   ((C6_fetch_query_selects_available "linux" job1 (by decide) (by decide)
      (Or.inl rfl) (fun v h => nomatch h) (fun v h => nomatch h)).2.1).mpr
     ⟨Or.inl rfl, rfl, rfl, rfl⟩⟩

/-- C7: the filter engine evaluates each query key as claimed — the four
spec examples over `A{platform:"mac"}`, `B{platform:"win"}`,
`C{platform:undefined}` come out exactly as listed; the result is always
a sublist of the (unmutated) input; a trailing `!` on a key passes a
candidate exactly when the plain key rejects it (NONE-of semantics);
comma-separated alternatives combine as OR; and a dotted key whose
resolution hits a missing field is coerced to the literal string
`"undefined"`, matching the alternative `undefined`. -/
theorem C7_filter_engine_semantics :
    (Server.filter [jobA, jobB, jobC] [("platform", "mac")] = [jobA]
     ∧ Server.filter [jobA, jobB, jobC] [("platform", "mac,win")] = [jobA, jobB]
     ∧ Server.filter [jobA, jobB, jobC] [("platform!", "mac")] = [jobB, jobC]
     ∧ Server.filter [jobA, jobB, jobC] [("platform", "undefined")] = [jobC])
    ∧ (∀ (l : List Value) (q : List (String × String)), (Server.filter l q).Sublist l)
    ∧ (∀ (c : Value) (key val : String), endsWithChar key '!' = false →
        filterPred (key ++ "!", val) c = !(filterPred (key, val) c))
    ∧ (∀ (c : Value) (key v₁ v₂ : String), endsWithChar key '!' = false →
        filterPred (key, v₁ ++ "," ++ v₂) c
          = (filterPred (key, v₁) c || filterPred (key, v₂) c))
    ∧ (∀ (c : Value) (key : String), endsWithChar key '!' = false →
        (jsSplit key '.').foldl jsGet (some c) = none →
        filterPred (key, "undefined") c = true) :=
  ⟨⟨rfl, rfl, rfl, rfl⟩,
   fun l q => Server.filter_sublist l q,
   fun c key val hk => filterPred_negation key val c hk,
   fun c key v₁ v₂ hk => filterPred_or_append key v₁ v₂ c hk,
   fun c key hk hm => filterPred_missing_undefined key c hk hm⟩

theorem C7_filter_engine_semantics_witness :
    endsWithChar "platform" '!' = false
    ∧ filterPred ("platform!", "mac") jobB = !(filterPred ("platform", "mac") jobB)
    ∧ filterPred ("platform", "mac" ++ "," ++ "win") jobB
        = (filterPred ("platform", "mac") jobB || filterPred ("platform", "win") jobB)
    ∧ (jsSplit "platform" '.').foldl jsGet (some jobC) = none
    ∧ filterPred ("platform", "undefined") jobC = true :=
  ⟨rfl,
   C7_filter_engine_semantics.2.2.1 jobB "platform" "mac" rfl,
   C7_filter_engine_semantics.2.2.2.1 jobB "platform" "mac" "win" rfl,
   rfl,
   C7_filter_engine_semantics.2.2.2.2 jobC "platform" rfl rfl⟩

end Bugbot
